import Mathlib

/-!
Verification of the content-graph builder and rebuild scheduler of the
vslinko.com static-site generator.

The embedding translates the relevant functions of `src/build.js` and of the
ESM variant of the same pipeline (`src/unnamed/part_000`) into Lean.
JavaScript strings are modelled as `List Char` (`Str`); external library
calls (YAML parsing, slugification, markdown parsing, typographic
substitution) are modelled as explicit function parameters, so every theorem
holds for an arbitrary behaviour of those collaborators unless a documented
fact about them is taken as a hypothesis.

Machine integers do not occur: all counters and timestamps are `Nat`
(JS numbers here are array indices and millisecond timestamps, far below
2^53, and the code performs no wrapping arithmetic on them).
-/

/-- JavaScript strings are modelled as lists of characters. -/
abbrev Str := List Char

/-- Embed a Lean string literal into the `Str` model. -/
def lit (s : String) : Str := s.toList

/- ===================================================================
   Rebuild scheduler (`watchCommand` in src/build.js lines 516-543 and
   src/unnamed/part_000 lines 561-588).

   The watch callback `cb` closes over two booleans:

     let processing = false;
     let scheduled = false;
     const cb = async () => {
       if (processing) { scheduled = true; return; }
       try { processing = true; await buildCommand(); }
       finally {
         processing = false;
         if (scheduled) { scheduled = false; cb(); }
       }
     };

   Node's event loop is single threaded, so the callback body between
   suspension points runs atomically.  The state machine below has one
   transition per atomic segment: `onChange` is one invocation of `cb`
   (up to the `await`), and `onFinally` is the `finally` block that runs
   when the awaited build settles (fulfilled or rejected).  `running`
   counts build executions that have started and not yet settled; the
   `Nat` paired with each transition counts the builds started by it.
   =================================================================== -/

structure Sched where
  processing : Bool
  scheduled : Bool
  running : Nat
deriving DecidableEq, Repr

/-- The initial scheduler state: no build running, nothing pending. -/
def Sched.init : Sched := ⟨false, false, 0⟩

/-- The state while one build runs with no pending change recorded. -/
def Sched.building : Sched := ⟨true, false, 1⟩

/-- One invocation of `cb`: if a build is processing, only record the
pending flag; otherwise mark processing and start a build. -/
def onChange (s : Sched) : Sched × Nat :=
  if s.processing then ({ s with scheduled := true }, 0)
  else ({ processing := true, scheduled := s.scheduled, running := s.running + 1 }, 1)

/-- The unconditional first statement of the `finally` block:
`processing = false` (the settled build leaves the in-flight set). -/
def onRelease (s : Sched) : Sched :=
  { s with processing := false, running := s.running - 1 }

/-- The whole `finally` block: release the busy state, then, if a change
was recorded during the build, clear the flag and re-invoke `cb`
(which finds `processing == false` and starts exactly one new build). -/
def onFinally (s : Sched) : Sched × Nat :=
  let s1 := onRelease s
  if s1.scheduled then onChange { s1 with scheduled := false }
  else (s1, 0)

/-- Events delivered to the scheduler: a file-change notification from
either watcher, or the settling of the running build (`ok` tells whether
the build succeeded; the `finally` block runs either way). -/
inductive Ev where
  | change : Ev
  | complete (ok : Bool) : Ev
deriving DecidableEq, Repr

/-- One scheduler step.  A `complete` event runs the `finally` block
regardless of the build's outcome. -/
def step (s : Sched) (e : Ev) : Sched × Nat :=
  match e with
  | .change => onChange s
  | .complete _ => onFinally s

/-- Run a list of events, returning the final state and the total number
of build executions started along the way. -/
def run (s : Sched) : List Ev → Sched × Nat
  | [] => (s, 0)
  | e :: es =>
    let p := step s e
    let q := run p.1 es
    (q.1, p.2 + q.2)

/-- A trace is valid when every `complete` event settles a build that is
actually running. -/
def validB (s : Sched) : List Ev → Bool
  | [] => true
  | .change :: es => validB (onChange s).1 es
  | .complete _ :: es => decide (1 ≤ s.running) && validB (onFinally s).1 es

/-- The single-flight invariant: a build is running exactly when the
`processing` flag is set. -/
def SchedInv (s : Sched) : Prop := s.running = (if s.processing then 1 else 0)

theorem schedInv_init : SchedInv Sched.init := rfl

theorem onChange_schedInv {s : Sched} (h : SchedInv s) : SchedInv (onChange s).1 := by
  unfold onChange SchedInv at *
  by_cases hp : s.processing <;> simp [hp] at h ⊢ <;> simp [h]

theorem onFinally_schedInv {s : Sched} (h : SchedInv s) (hr : 1 ≤ s.running) :
    SchedInv (onFinally s).1 := by
  unfold onFinally onRelease SchedInv at *
  by_cases hp : s.processing <;> simp [hp] at h ⊢
  · by_cases hs : s.scheduled <;> simp [h, hs, onChange, SchedInv]
  · omega

theorem run_schedInv {es : List Ev} {s : Sched} (h : SchedInv s) (hv : validB s es = true) :
    SchedInv (run s es).1 := by
  induction es generalizing s with
  | nil => exact h
  | cons e es ih =>
    cases e with
    | change =>
      simp only [validB] at hv
      simpa [run, step] using ih (onChange_schedInv h) hv
    | complete ok =>
      simp only [validB, Bool.and_eq_true, decide_eq_true_eq] at hv
      simpa [run, step] using ih (onFinally_schedInv h hv.1) hv.2

theorem validB_take {es : List Ev} {s : Sched} (hv : validB s es = true) (k : Nat) :
    validB s (es.take k) = true := by
  induction es generalizing s k with
  | nil => simp [validB]
  | cons e es ih =>
    cases k with
    | zero => simp [validB]
    | succ k =>
      cases e with
      | change =>
        simp only [validB] at hv
        simpa [List.take, validB] using ih hv k
      | complete ok =>
        simp only [validB, Bool.and_eq_true, decide_eq_true_eq] at hv
        simp [List.take, validB, hv.1]
        exact ih hv.2 k

theorem run_append (s : Sched) (xs ys : List Ev) :
    run s (xs ++ ys) =
      ((run (run s xs).1 ys).1, (run s xs).2 + (run (run s xs).1 ys).2) := by
  induction xs generalizing s with
  | nil => simp [run]
  | cons x xs ih => simp [run, ih, Nat.add_assoc]

/-- A burst of `n` change events arriving at the plain building state all
land on the pending flag. -/
theorem run_changes_while_building (n : Nat) :
    run ⟨true, true, 1⟩ (List.replicate n .change) = (⟨true, true, 1⟩, 0) := by
  induction n with
  | zero => simp [run]
  | succ n ih => simp [List.replicate, run, step, onChange, ih]

/-- C1. Single-flight and coalescing of the rebuild scheduler
(`watchCommand`, src/build.js:516-543): (a) along every valid event trace
from the initial state, at most one build execution is in flight at every
instant; (b) any burst of `n ≥ 1` change events arriving while a build is
in progress results in exactly one follow-up build when that build
completes (successfully or not), not `n` builds. -/
theorem watch_single_flight_and_coalescing :
    (∀ es : List Ev, validB Sched.init es = true →
      ∀ k : Nat, (run Sched.init (es.take k)).1.running ≤ 1)
    ∧ (∀ (n : Nat) (ok : Bool), 1 ≤ n →
        run Sched.building (List.replicate n .change ++ [.complete ok]) =
          (Sched.building, 1)) := by
  constructor
  · intro es hv k
    have h1 : SchedInv (run Sched.init (es.take k)).1 :=
      run_schedInv schedInv_init (validB_take hv k)
    unfold SchedInv at h1
    by_cases hp : (run Sched.init (es.take k)).1.processing <;> simp [hp] at h1 <;> omega
  · intro n ok hn
    obtain ⟨m, rfl⟩ : ∃ m, n = m + 1 := ⟨n - 1, by omega⟩
    have hrep : List.replicate (m + 1) Ev.change =
        Ev.change :: List.replicate m Ev.change := rfl
    rw [hrep]
    have hstep : run Sched.building (Ev.change :: (List.replicate m Ev.change ++ [Ev.complete ok])) =
        let p := step Sched.building Ev.change
        let q := run p.1 (List.replicate m Ev.change ++ [Ev.complete ok])
        (q.1, p.2 + q.2) := rfl
    simp only [List.cons_append] at *
    rw [hstep]
    have h1 : step Sched.building Ev.change = (⟨true, true, 1⟩, 0) := by
      simp [step, onChange, Sched.building]
    rw [h1]
    rw [run_append]
    rw [run_changes_while_building m]
    simp [run, step, onFinally, onRelease, onChange, Sched.building]

/-- Witness for C1 at concrete inputs: a valid trace (change, change,
complete, change) keeps at most one build in flight at every prefix
(shown at k = 3), and a burst of 5 changes during a build yields exactly
one follow-up build. -/
theorem watch_single_flight_and_coalescing_witness :
    validB Sched.init [Ev.change, Ev.change, Ev.complete true, Ev.change] = true
    ∧ (run Sched.init ([Ev.change, Ev.change, Ev.complete true, Ev.change].take 3)).1.running ≤ 1
    ∧ 1 ≤ 5
    ∧ run Sched.building (List.replicate 5 .change ++ [.complete false]) =
        (Sched.building, 1) := by
  refine ⟨by decide, ?_, by decide, ?_⟩
  · exact watch_single_flight_and_coalescing.1
      [Ev.change, Ev.change, Ev.complete true, Ev.change] (by decide) 3
  · exact watch_single_flight_and_coalescing.2 5 false (by decide)

/-- C2. A failing build releases the busy state exactly like a successful
one (`cb`'s `finally` block, src/build.js:523-539): the completion
transition is independent of the build outcome; the release of
`processing` is unconditional; a recorded pending change leads to exactly
one immediately started new build with the pending flag consumed; and with
no pending change the scheduler returns to the idle state, from which the
next change event starts a build — a failing build never wedges the loop. -/
theorem watch_failure_releases_busy (s : Sched) :
    step s (.complete false) = step s (.complete true)
    ∧ (onRelease s).processing = false
    ∧ (s.scheduled = true →
        (onFinally s).2 = 1
        ∧ (onFinally s).1.scheduled = false
        ∧ (onFinally s).1.processing = true)
    ∧ (s.scheduled = false →
        (onFinally s).1.processing = false
        ∧ (onFinally s).2 = 0
        ∧ (step (onFinally s).1 .change).2 = 1) := by
  refine ⟨rfl, rfl, ?_, ?_⟩
  · intro hs
    simp [onFinally, onRelease, hs, onChange]
  · intro hs
    simp [onFinally, onRelease, hs, step, onChange]

/-- Witness for C2 at the concrete states ⟨true, true, 1⟩ (pending change
recorded) and ⟨true, false, 1⟩ (no pending change). -/
theorem watch_failure_releases_busy_witness :
    (step ⟨true, true, 1⟩ (.complete false) = step ⟨true, true, 1⟩ (.complete true)
      ∧ (onFinally ⟨true, true, 1⟩).2 = 1
      ∧ (onFinally ⟨true, true, 1⟩).1.scheduled = false
      ∧ (onFinally ⟨true, true, 1⟩).1.processing = true)
    ∧ ((onRelease ⟨true, false, 1⟩).processing = false
      ∧ (onFinally ⟨true, false, 1⟩).1.processing = false
      ∧ (step (onFinally ⟨true, false, 1⟩).1 .change).2 = 1) := by
  have h1 := watch_failure_releases_busy ⟨true, true, 1⟩
  have h2 := watch_failure_releases_busy ⟨true, false, 1⟩
  have h1c := h1.2.2.1 rfl
  have h2c := h2.2.2.2 rfl
  exact ⟨⟨h1.1, h1c.1, h1c.2.1, h1c.2.2⟩, h2.2.1, h2c.1, h2c.2.2⟩

/- ===================================================================
   String-level document loader (src/build.js lines 105-147 `parseGardenMeta`,
   lines 246-265 `parseMeta`, lines 302-310 `formatGardenUrl`; the same
   functions appear in src/unnamed/part_000 lines 147-198 and 316-335).
   =================================================================== -/

/-- JavaScript `String.prototype.split` with a one-character separator:
splitting the empty string gives `[""]`, adjacent separators give empty
parts, a trailing separator gives a trailing empty part. -/
def jsSplit (sep : Char) : Str → List Str
  | [] => [[]]
  | c :: cs =>
    if c = sep then [] :: jsSplit sep cs
    else
      match jsSplit sep cs with
      | [] => [[c]]
      | r :: rs => (c :: r) :: rs

/-- JavaScript `Array.prototype.flatten` with a one-character separator. -/
def jsJoin (sep : Char) : List Str → Str
  | [] => []
  | [x] => x
  | x :: xs => x ++ sep :: jsJoin sep xs

/-- Index of the first occurrence of `m` as a contiguous substring
(JavaScript `String.prototype.indexOf`, `none` standing for `-1`). -/
def firstOccur (m : Str) : Str → Option Nat
  | [] => if m = [] then some 0 else none
  | c :: cs =>
    if m.isPrefixOf (c :: cs) then some 0
    else (firstOccur m cs).map (· + 1)

/-- JavaScript `String.prototype.includes`. -/
def jsIncludes (m s : Str) : Bool := (firstOccur m s).isSome

/-- Index of the first list element equal to `a` (JavaScript
`Array.prototype.indexOf`); only used under a membership guard, as in the
source, so the out-of-bounds value is irrelevant. -/
def listIndexOf (a : Str) : List Str → Nat
  | [] => 0
  | x :: xs => if x = a then 0 else listIndexOf a xs + 1

/-- JavaScript `String.prototype.trimLeft`.  The function takes no
parameters: it always removes leading whitespace and nothing else.  The
call site `tag.trimLeft("#")` in `parseGardenMeta` passes an argument,
which JavaScript silently ignores; the embedding keeps the ignored
argument to mirror the call site. -/
def jsTrimLeft (_arg : Str) (s : Str) : Str := s.dropWhile Char.isWhitespace

/-- The front-matter `tags` value: absent, a single scalar, or a list
(the only shapes the loader distinguishes). -/
inductive Tags where
  | one (t : Str) : Tags
  | many (ts : List Str) : Tags
deriving DecidableEq, Repr

/-- The parsed front-matter object, to the extent the embedded components
read it.  `YAML.parse` returning `null` is modelled as `Option.none` at
the use sites, not as a `Meta` value. -/
structure Meta where
  tags : Option Tags
deriving DecidableEq, Repr

/-- `Array.isArray(meta.tags) ? meta.tags : meta.tags ? [meta.tags] : []`:
a missing value and the falsy empty-string scalar give `[]`. -/
def tagsList : Option Tags → List Str
  | none => []
  | some (.many ts) => ts
  | some (.one t) => if t = [] then [] else [t]

/-- JavaScript `Set` insertion followed by `Array.from`: deduplicate
keeping the first occurrence of each element, in insertion order. -/
def dedupFirst (xs : List Str) : List Str :=
  xs.foldl (fun acc t => if t ∈ acc then acc else acc ++ [t]) []

/-- The tag normalization of `parseGardenMeta` (src/build.js:117-127):
each tag passes through `trimLeft("#")` and the results are deduplicated.
(Because `trimLeft` ignores its argument, leading `#` characters are in
fact not stripped.) -/
def normalizeTags (tags : Option Tags) : List Str :=
  dedupFirst ((tagsList tags).map (jsTrimLeft (lit "#")))

/-- `parseMeta` (src/build.js:246-265): if the first line is `---` and a
later line is `---`, the enclosed lines are fed to the YAML parser
(`yaml`, an external collaborator passed as a function) and the rest is
the body; otherwise the metadata object is empty (`{}`, here
`some ⟨none⟩`) and the whole text is the body.  `yaml` returns `none`
where `YAML.parse` returns `null`. -/
def parseMeta (yaml : Str → Option Meta) (content : Str) : Option Meta × Str :=
  match jsSplit '\n' content with
  | [] => (some ⟨none⟩, content)
  | r0 :: rest =>
    if r0 = lit "---" then
      if (lit "---") ∈ rest then
        let till := listIndexOf (lit "---") rest
        (yaml (jsJoin '\n' (rest.take till)), jsJoin '\n' (rest.drop (till + 1)))
      else (some ⟨none⟩, content)
    else (some ⟨none⟩, content)

/-- Node `path.dirname` for the relative and root-prefixed paths produced
by the glob enumeration and by `formatGardenUrl`'s `"/" + src` argument. -/
def dirnameJS (p : Str) : Str :=
  let d := jsJoin '/' ((jsSplit '/' p).dropLast)
  if d = [] then (if p.head? = some '/' then lit "/" else lit ".") else d

/-- Node `path.basename(p, ".md")`: the last path segment, with a final
`.md` suffix removed. -/
def basenameMd (p : Str) : Str :=
  let base := (jsSplit '/' p).getLastD []
  if (lit ".md").isSuffixOf base then base.take (base.length - 3) else base

/-- Node `path.flatten` for the two-argument calls made by
`formatGardenUrl`. -/
def pathJoinJS (a b : Str) : Str :=
  if a = lit "/" then lit "/" ++ b
  else if a = lit "." then b
  else a ++ '/' :: b

/-- ASCII lowercasing standing in for `String.prototype.toLowerCase`
(the URLs the claims manipulate are opaque values; only equality of equal
inputs matters). -/
def toLowerStr (s : Str) : Str := s.map Char.toLower

/-- `formatGardenUrl` (src/build.js:302-310): lowercased directory part
joined with the slugified basename plus `.html`.  `slugifyFn` models the
external `slugify` library. -/
def formatGardenUrl (slugifyFn : Str → Str) (filePath : Str) : Str :=
  pathJoinJS (toLowerStr (dirnameJS filePath)) (slugifyFn (basenameMd filePath) ++ lit ".html")

/-- The `dirs` computation of `parseGardenMeta` (src/build.js:131-134):
`path.dirname(src).split("/").filter(x => x !== ".")`. -/
def dirsOf (src : Str) : List Str :=
  (jsSplit '/' (dirnameJS src)).filter (· ≠ lit ".")

/-- The input of `parseGardenMeta` for one garden file: its glob-relative
path, the raw text `readFile` returns, and the `stat` mtime
(milliseconds, a `Nat`). -/
structure GardenSource where
  src : Str
  fileContent : Str
  mtime : Nat
deriving DecidableEq, Repr

/-- A loaded garden document, the result record of `parseGardenMeta`
(src/build.js:136-146). -/
structure Doc where
  link : Str
  canonicalUrl : Str
  title : Str
  mtime : Nat
  dirs : List Str
  meta : Meta
  tags : List Str
  isPublic : Bool
  content : Str
deriving DecidableEq, Repr

/-- The error value standing for the `TypeError` thrown when the loader
dereferences `meta.tags` on a `null` metadata object. -/
def errNullMeta : Str := lit "TypeError: null metadata"

/-- `parseGardenMeta` (src/build.js:105-147).  When `parseMeta` yields a
`null` metadata object the access `meta.tags` throws, so loading is
`Except`-valued; otherwise the document record is built: tags normalized
and deduplicated, visibility from the `public` tag or a literal
`#public` anywhere in the raw text, directory segments for tree
placement, and the permalink derived from the source path. -/
def parseGardenMeta (yaml : Str → Option Meta) (slugifyFn : Str → Str)
    (g : GardenSource) : Except Str Doc :=
  let title := basenameMd g.src
  let link := lit "/garden" ++ formatGardenUrl slugifyFn ('/' :: g.src)
  let parsed := parseMeta yaml g.fileContent
  match parsed.1 with
  | none => .error errNullMeta
  | some meta =>
    let tags := normalizeTags meta.tags
    .ok
      { link := link
        canonicalUrl := lit "https://vslinko.com" ++ link
        title := title
        mtime := g.mtime
        dirs := dirsOf g.src
        meta := meta
        tags := tags
        isPublic := decide ((lit "public") ∈ tags) || jsIncludes (lit "#public") g.fileContent
        content := parsed.2 }

/-- C8 (code bug).  The loader's tag normalization does not strip leading
`#` marker characters: `String.prototype.trimLeft` takes no parameters and
only removes whitespace, so the argument `"#"` at the call site
`tag.trimLeft("#")` (src/build.js:124) is silently ignored.  A front-matter
tag written `#public` therefore yields the tag `#public`, not `public`, in
the document's tag set. -/
theorem tags_hash_not_stripped :
    normalizeTags (some (.one (lit "#public"))) = [lit "#public"]
    ∧ (lit "public") ∉ normalizeTags (some (.one (lit "#public"))) := by
  decide

theorem jsSplit_empty_frontmatter (r : Str) :
    jsSplit '\n' (lit "---\n---\n" ++ r) = lit "---" :: lit "---" :: jsSplit '\n' r := rfl

/-- C10.  On an input whose metadata block is present but empty (first two
lines both `---`), `parseMeta` feeds the empty string to the YAML parser,
which returns `null` (hypothesis `hy`, the documented behaviour of
`YAML.parse("")`); the metadata component is therefore `none` rather than
an empty object, and `parseGardenMeta` subsequently throws on the
`meta.tags` dereference: document loading is not total on such inputs. -/
theorem empty_metadata_block_errors (yaml : Str → Option Meta)
    (slugifyFn : Str → Str) (g : GardenSource) (r : Str)
    (hy : yaml [] = none) (hg : g.fileContent = lit "---\n---\n" ++ r) :
    (parseMeta yaml g.fileContent).1 = none
    ∧ parseGardenMeta yaml slugifyFn g = .error errNullMeta := by
  have h1 : (parseMeta yaml g.fileContent).1 = none := by
    rw [hg]
    simp [parseMeta, jsSplit_empty_frontmatter, listIndexOf, jsJoin, hy]
  refine ⟨h1, ?_⟩
  simp [parseGardenMeta, h1]

/-- Witness for C10 at a concrete input: a file reading
`---`, `---`, `body`, under a YAML parser that returns `null` on empty
input and an identity slugifier. -/
theorem empty_metadata_block_errors_witness :
    ((fun s => if s = ([] : Str) then none else some (⟨none⟩ : Meta)) ([] : Str) = none)
    ∧ (lit "---\n---\nbody" : Str) = lit "---\n---\n" ++ lit "body"
    ∧ (parseMeta (fun s => if s = ([] : Str) then none else some ⟨none⟩)
        (lit "---\n---\nbody")).1 = none
    ∧ parseGardenMeta (fun s => if s = ([] : Str) then none else some ⟨none⟩)
        (fun s => s) ⟨lit "a.md", lit "---\n---\nbody", 7⟩ = .error errNullMeta := by
  refine ⟨rfl, by decide, ?_⟩
  have h := empty_metadata_block_errors
    (fun s => if s = ([] : Str) then none else some ⟨none⟩)
    (fun s => s) ⟨lit "a.md", lit "---\n---\nbody", 7⟩ (lit "body")
    (by decide) (by decide)
  exact h

/- ===================================================================
   Permalink index and the two-pass garden pipeline
   (`buildGarden`, src/build.js:312-386; `parseGarden`,
   src/unnamed/part_000:365-419).
   =================================================================== -/

/-- A JavaScript `Map<string, string>` as an association list in key
insertion order. -/
abbrev PermalinkMap := List (Str × Str)

/-- `Map.set`: overwrite in place when the key exists (its position is
kept), otherwise append. -/
def pmSet (m : PermalinkMap) (k v : Str) : PermalinkMap :=
  if m.any (fun kv => decide (kv.1 = k)) then
    m.map (fun kv => if kv.1 = k then (k, v) else kv)
  else m ++ [(k, v)]

/-- `Map.get` / `Map.has`: the value at the first (unique) matching key. -/
def pmGet (m : PermalinkMap) (k : Str) : Option Str :=
  (m.find? (fun kv => decide (kv.1 = k))).map (·.2)

/-- The first pass of `buildGarden` (src/build.js:320-331): load each
file's metadata in enumeration order; a document that is not public is
skipped entirely; a public one is inserted into the permalink index and
appended to the public list.  A loader exception aborts the pass. -/
def firstPass (yaml : Str → Option Meta) (slugifyFn : Str → Str) :
    List GardenSource → PermalinkMap × List Doc → Except Str (PermalinkMap × List Doc)
  | [], acc => .ok acc
  | g :: gs, acc =>
    match parseGardenMeta yaml slugifyFn g with
    | .error e => .error e
    | .ok d =>
      if d.isPublic then
        firstPass yaml slugifyFn gs (pmSet acc.1 d.title d.link, acc.2 ++ [d])
      else firstPass yaml slugifyFn gs acc

/- ===================================================================
   The parsed markdown document.  The external remark parser is modelled
   as a function `parseMd : Str → List Block` producing the mdast root's
   children: headings (with the ids remark-slug assigned), paragraphs of
   inline content, and code blocks.  Wiki references appear as `.wiki`
   inline nodes wherever they occur.
   =================================================================== -/

inductive Inline where
  | str (s : Str) : Inline
  | wiki (target : Str) (al : Option Str) : Inline
deriving DecidableEq, Repr

inductive Block where
  | heading (depth : Nat) (id : Str) (content : List Inline) : Block
  | para (content : List Inline) : Block
  | code (text : Str) : Block
deriving DecidableEq, Repr

/-- `mdast-util-to-string` on one inline node (a wiki node carries the
referenced title as its value). -/
def inlineText : Inline → Str
  | .str s => s
  | .wiki t _ => t

/-- `mdast-util-to-string` on a node's children. -/
def inlinesText (xs : List Inline) : Str := (xs.map inlineText).flatten

def inlineWiki : Inline → Option (Str × Option Str)
  | .wiki t a => some (t, a)
  | .str _ => none

def blockWikis : Block → List (Str × Option Str)
  | .heading _ _ xs => xs.filterMap inlineWiki
  | .para xs => xs.filterMap inlineWiki
  | .code _ => []

/-- All wiki references of a document in source order (the order in which
the parser invokes the plugin's `pageResolver`). -/
def wikiNodes (bs : List Block) : List (Str × Option Str) :=
  (bs.map blockWikis).flatten

def wikiTargets (bs : List Block) : List Str := (wikiNodes bs).map Prod.fst

/-- The `pageResolver` option passed to the wiki-link plugin
(src/build.js:183-193): an unknown title yields `[]` and leaves the
`links` accumulator untouched; a known one appends its permalink to
`links` and returns it.  The returned pair is (new `links` array, value
handed to the plugin). -/
def pageResolver (pm : PermalinkMap) (name : Str) (links : List Str) :
    List Str × List Str :=
  match pmGet pm name with
  | none => (links, [])
  | some permalink => (links ++ [permalink], [permalink])

/-- The `links` array after the parser has run `pageResolver` over every
wiki reference in source order. -/
def resolveLinks (pm : PermalinkMap) (names : List Str) : List Str :=
  names.foldl (fun links n => (pageResolver pm n links).1) []

/-- `[[Title||||||Alias]]`: the displayed text is the alias, or the title
when no alias is given. -/
def aliasOr (a : Option Str) (t : Str) : Str := a.getD t

inductive RInline where
  | text (s : Str) : RInline
  | link (href : Str) (label : Str) : RInline
deriving DecidableEq, Repr

inductive RBlock where
  | heading (depth : Nat) (id : Str) (content : List RInline) : RBlock
  | para (content : List RInline) : RBlock
  | code (text : Str) : RBlock
deriving DecidableEq, Repr

/-- Modelled from the spec: the rendering of one inline node by the
external remark-wiki-link plugin and remark-typograf (their sources are
not part of this repository).  A wiki reference whose title resolves in
the permalink index renders as a hyperlink whose href is the permalink
unchanged (`hrefTemplate: (permalink) => permalink`, src/build.js:194)
labelled with the alias or title; an unresolvable reference degrades to
plain text identical to the alias (or title when no alias is given).
Plain text nodes pass through the typographic substitution `ty`. -/
def renderInline (ty : Str → Str) (pm : PermalinkMap) : Inline → RInline
  | .str s => .text (ty s)
  | .wiki t a =>
    match pmGet pm t with
    | some url => .link url (aliasOr a t)
    | none => .text (aliasOr a t)

def renderBlock (ty : Str → Str) (pm : PermalinkMap) : Block → RBlock
  | .heading d id xs => .heading d id (xs.map (renderInline ty pm))
  | .para xs => .para (xs.map (renderInline ty pm))
  | .code s => .code s

def renderBlocks (ty : Str → Str) (pm : PermalinkMap) (bs : List Block) :
    List RBlock := bs.map (renderBlock ty pm)

structure TocEntry where
  title : Str
  id : Str
  depth : Nat
deriving DecidableEq, Repr

/-- The table-of-contents collector (src/build.js:158-168): every
top-level heading contributes its typografed text, its id and its
depth. -/
def tocEntryOf (ty : Str → Str) : Block → Option TocEntry
  | .heading d id xs => some ⟨ty (inlinesText xs), id, d⟩
  | .para _ => none
  | .code _ => none

/-- Locate the first depth-1 heading (`root.children.find`,
src/build.js:170-172), returning the blocks before it, its id and inline
content, and the blocks after it. -/
def splitFirstH1 : List Block → Option (List Block × Str × List Inline × List Block)
  | [] => none
  | .heading 1 id xs :: bs => some ([], id, xs, bs)
  | b :: bs => (splitFirstH1 bs).map (fun r => (b :: r.1, r.2.1, r.2.2.1, r.2.2.2))

/-- The title-extraction transformer (src/build.js:169-181): when a
depth-1 heading exists, its typografed text becomes the title, its id the
title id, and the heading is spliced out of the document; otherwise the
default title and an empty id are kept. -/
def titleParts (ty : Str → Str) (dflt : Str) (bs : List Block) :
    Str × Str × List Block :=
  match splitFirstH1 bs with
  | none => (dflt, [], bs)
  | some (p, id, xs, q) => (ty (inlinesText xs), id, p ++ q)

/-- A fully processed public document: the result of `parseGardenFile`
(src/build.js:149-215), spreading the loaded document and replacing its
content with the rendered body. -/
structure PFile where
  link : Str
  canonicalUrl : Str
  title : Str
  titleId : Str
  mtime : Nat
  dirs : List Str
  tags : List Str
  isPublic : Bool
  rendered : List RBlock
  links : List Str
  toc : List TocEntry
deriving DecidableEq, Repr

/-- `parseGardenFile` (src/build.js:149-215): parse the body, collect the
table of contents from all headings (the depth-1 heading included),
resolve every wiki reference in source order against the permalink index
(filling the `links` array), then extract the title heading and render
the remaining blocks. -/
def parseGardenFile (parseMd : Str → List Block) (ty : Str → Str)
    (pm : PermalinkMap) (d : Doc) : PFile :=
  let blocks := parseMd d.content
  let tp := titleParts ty d.title blocks
  { link := d.link
    canonicalUrl := d.canonicalUrl
    title := tp.1
    titleId := tp.2.1
    mtime := d.mtime
    dirs := d.dirs
    tags := d.tags
    isPublic := d.isPublic
    rendered := renderBlocks ty pm tp.2.2
    links := resolveLinks pm (wikiTargets blocks)
    toc := blocks.filterMap (tocEntryOf ty) }

/-- The backlink-map update for one processed document
(src/build.js:358-364): for each `linkTo` in the document's `links`, in
order, push the document onto the entry for `linkTo` (creating it if
absent — the function model returns `[]` for absent keys). -/
def blAdd (bl : Str → List PFile) (pf : PFile) : Str → List PFile :=
  pf.links.foldl (fun b u => fun x => if x = u then b x ++ [pf] else b x) bl

/-- The second pass of `buildGarden` (src/build.js:350-367): process each
public document in order, accumulating both the processed list and the
backlink index. -/
def pass2 (parseMd : Str → List Block) (ty : Str → Str) (pm : PermalinkMap)
    (docs : List Doc) : List PFile × (Str → List PFile) :=
  docs.foldl
    (fun acc d =>
      let pf := parseGardenFile parseMd ty pm d
      (acc.1 ++ [pf], blAdd acc.2 pf))
    ([], fun _ => [])

/-- `Math.max(x, ...xs)` on naturals. -/
def jsMathMax (x : Nat) (xs : List Nat) : Nat := xs.foldl Nat.max x

/-- The sitemap entries the garden contributes (src/build.js:369-378):
per processed document, its canonical URL and a lastmod equal to
`Math.max(file.mtime, ...(fileBacklinks || []).map(f => f.mtime))`. -/
def gardenUrls (files2 : List PFile) (bl : Str → List PFile) :
    List (Str × Nat) :=
  files2.map (fun f => (f.canonicalUrl, jsMathMax f.mtime ((bl f.link).map PFile.mtime)))

/- ===================================================================
   Tree builder (src/build.js:333-348; `buildGardenTree`,
   src/unnamed/part_000:421-439).
   =================================================================== -/

inductive GTree where
  | mk (name : Str) (folders : List GTree) (files : List (Str × Str)) : GTree
deriving Repr

def GTree.name : GTree → Str
  | .mk n _ _ => n

def GTree.folders : GTree → List GTree
  | .mk _ fs _ => fs

def GTree.files : GTree → List (Str × Str)
  | .mk _ _ ls => ls

/-- `current.folders.find(f => f.name === dir)` together with the in-place
mutation of the found node: the first folder whose name matches, with its
surroundings. -/
def splitFirstFolder (d : Str) : List GTree → Option (List GTree × GTree × List GTree)
  | [] => none
  | t :: ts =>
    if t.name = d then some ([], t, ts)
    else (splitFirstFolder d ts).map (fun r => (t :: r.1, r.2.1, r.2.2))

/-- Inserting one document into the tree (the body of the loop at
src/build.js:334-348): walk the directory segments, reusing an existing
folder node (lookup before insert) or pushing a fresh one, then append
the `(link, title)` leaf to the final node's files. -/
def treeInsert (leaf : Str × Str) : List Str → GTree → GTree
  | [], .mk n fs ls => .mk n fs (ls ++ [leaf])
  | d :: rest, .mk n fs ls =>
    match splitFirstFolder d fs with
    | some (p, t0, q) => .mk n (p ++ treeInsert leaf rest t0 :: q) ls
    | none => .mk n (fs ++ [treeInsert leaf rest (.mk d [] [])]) ls

/-- `buildGardenTree`: fold every public document into an initially empty
root. -/
def buildGardenTree (docs : List Doc) : GTree :=
  docs.foldl (fun t d => treeInsert (d.link, d.title) d.dirs t) (.mk [] [] [])

/-- The aggregate result of `buildGarden` (src/build.js:312-386). -/
structure GardenOut where
  pm : PermalinkMap
  pubs : List Doc
  tree : GTree
  files2 : List PFile
  backlinks : Str → List PFile
  urls : List (Str × Nat)

/-- `buildGarden`: first pass over all enumerated files, tree from the
public documents, second pass with backlink inversion, then the sitemap
entries. -/
def buildGarden (yaml : Str → Option Meta) (slugifyFn : Str → Str)
    (parseMd : Str → List Block) (ty : Str → Str)
    (files : List GardenSource) : Except Str GardenOut :=
  match firstPass yaml slugifyFn files ([], []) with
  | .error e => .error e
  | .ok acc =>
    let p2 := pass2 parseMd ty acc.1 acc.2
    .ok
      { pm := acc.1
        pubs := acc.2
        tree := buildGardenTree acc.2
        files2 := p2.1
        backlinks := p2.2
        urls := gardenUrls p2.1 p2.2 }

/- ===================================================================
   `parseMarkdown` of src/unnamed/part_000 (lines 200-280): the same
   pipeline with the hidden-section cut applied to the raw body before
   anything else, an optional permalink map, and code-block detection.
   =================================================================== -/

/-- The literal in-body marker after which content is private. -/
def hiddenMarker : Str := lit "<!--hidden-->"

/-- `content.indexOf("<!--hidden-->")` followed by `content.slice(0, i)`
(src/unnamed/part_000:207-210). -/
def cutHidden (c : Str) : Str :=
  match firstOccur hiddenMarker c with
  | some i => c.take i
  | none => c

def isCodeBlock : Block → Bool
  | .code _ => true
  | .heading _ _ _ => false
  | .para _ => false

/-- The result record of `parseMarkdown` (src/unnamed/part_000:272-279);
`title`/`titleId` stay `undefined` when the document has no depth-1
heading. -/
structure MdOut where
  title : Option Str
  titleId : Option Str
  links : List Str
  toc : List TocEntry
  hasCodeBlocks : Bool
  rendered : List RBlock
deriving DecidableEq, Repr

/-- The pipeline of `parseMarkdown` after the hidden-section cut.  A
missing permalink map resolves nothing (`!permalinks ||
!permalinks.has(name)`, src/unnamed/part_000:241). -/
def parseMarkdownCore (parseMd : Str → List Block) (ty : Str → Str)
    (pm : Option PermalinkMap) (content : Str) : MdOut :=
  let blocks := parseMd content
  let pm' := pm.getD []
  match splitFirstH1 blocks with
  | none =>
    { title := none
      titleId := none
      links := resolveLinks pm' (wikiTargets blocks)
      toc := blocks.filterMap (tocEntryOf ty)
      hasCodeBlocks := blocks.any isCodeBlock
      rendered := renderBlocks ty pm' blocks }
  | some (p, id, xs, q) =>
    { title := some (ty (inlinesText xs))
      titleId := some id
      links := resolveLinks pm' (wikiTargets blocks)
      toc := blocks.filterMap (tocEntryOf ty)
      hasCodeBlocks := blocks.any isCodeBlock
      rendered := renderBlocks ty pm' (p ++ q) }

/-- `parseMarkdown` (src/unnamed/part_000:200-280): everything from the
first occurrence of the hidden marker onward is discarded before any
further processing. -/
def parseMarkdown (parseMd : Str → List Block) (ty : Str → Str)
    (pm : Option PermalinkMap) (content : Str) : MdOut :=
  parseMarkdownCore parseMd ty pm (cutHidden content)

/- ===================================================================
   C3: non-public documents are skipped by the first pass.
   =================================================================== -/

theorem parseGardenMeta_ok_isPublic (yaml : Str → Option Meta)
    (slugifyFn : Str → Str) (g : GardenSource) (d : Doc)
    (h : parseGardenMeta yaml slugifyFn g = .ok d) :
    d.isPublic =
      (decide ((lit "public") ∈ d.tags) || jsIncludes (lit "#public") g.fileContent) := by
  simp only [parseGardenMeta] at h
  cases hp : (parseMeta yaml g.fileContent).1 with
  | none => rw [hp] at h; exact absurd h (by simp)
  | some meta =>
    rw [hp] at h
    simp only [Except.ok.injEq] at h
    subst h
    rfl

theorem firstPass_cons (yaml : Str → Option Meta) (slugifyFn : Str → Str)
    (g : GardenSource) (gs : List GardenSource) (acc : PermalinkMap × List Doc) :
    firstPass yaml slugifyFn (g :: gs) acc =
      match parseGardenMeta yaml slugifyFn g with
      | .error e => .error e
      | .ok d =>
        if d.isPublic then
          firstPass yaml slugifyFn gs (pmSet acc.1 d.title d.link, acc.2 ++ [d])
        else firstPass yaml slugifyFn gs acc := rfl

theorem firstPass_skips_head (yaml : Str → Option Meta) (slugifyFn : Str → Str)
    (g : GardenSource) (d : Doc) (gs : List GardenSource)
    (hparse : parseGardenMeta yaml slugifyFn g = .ok d)
    (hpub : d.isPublic = false) (acc : PermalinkMap × List Doc) :
    firstPass yaml slugifyFn (g :: gs) acc = firstPass yaml slugifyFn gs acc := by
  rw [firstPass_cons, hparse]
  simp [hpub]

theorem firstPass_skips_middle (yaml : Str → Option Meta) (slugifyFn : Str → Str)
    (g : GardenSource) (d : Doc) (pre post : List GardenSource)
    (hparse : parseGardenMeta yaml slugifyFn g = .ok d)
    (hpub : d.isPublic = false) (acc : PermalinkMap × List Doc) :
    firstPass yaml slugifyFn (pre ++ g :: post) acc =
      firstPass yaml slugifyFn (pre ++ post) acc := by
  induction pre generalizing acc with
  | nil => exact firstPass_skips_head yaml slugifyFn g d post hparse hpub acc
  | cons p pre ih =>
    simp only [List.cons_append]
    rw [firstPass_cons, firstPass_cons]
    cases hq : parseGardenMeta yaml slugifyFn p with
    | error e => rfl
    | ok dp =>
      by_cases hdp : dp.isPublic <;> simp only [hdp, if_true, if_false] <;> exact ih _

/-- C3.  A garden document whose tag set lacks the `public` tag and whose
raw text lacks the literal `#public` marker is not public, and the first
pass of `buildGarden` skips it entirely: running the pass with the
document present equals running it with the document removed (so it is
never inserted into the permalink index and never pushed into the public
list), and the whole `buildGarden` result — tree, processed files,
backlink index and sitemap URL entries included — is the same as if the
file did not exist. -/
theorem private_doc_skipped (yaml : Str → Option Meta) (slugifyFn : Str → Str)
    (parseMd : Str → List Block) (ty : Str → Str)
    (pre post : List GardenSource) (g : GardenSource) (d : Doc)
    (hparse : parseGardenMeta yaml slugifyFn g = .ok d)
    (htag : (lit "public") ∉ d.tags)
    (hbody : jsIncludes (lit "#public") g.fileContent = false) :
    d.isPublic = false
    ∧ (∀ acc, firstPass yaml slugifyFn (pre ++ g :: post) acc =
        firstPass yaml slugifyFn (pre ++ post) acc)
    ∧ buildGarden yaml slugifyFn parseMd ty (pre ++ g :: post) =
        buildGarden yaml slugifyFn parseMd ty (pre ++ post) := by
  have hpub : d.isPublic = false := by
    rw [parseGardenMeta_ok_isPublic yaml slugifyFn g d hparse]
    simp [htag, hbody]
  refine ⟨hpub, ?_, ?_⟩
  · intro acc
    exact firstPass_skips_middle yaml slugifyFn g d pre post hparse hpub acc
  · unfold buildGarden
    rw [firstPass_skips_middle yaml slugifyFn g d pre post hparse hpub ([], [])]

/-- Witness for C3 at a concrete input: a one-file garden whose only file
`c.md` has no front matter, no `public` tag and no `#public` marker
behaves exactly like an empty garden. -/
theorem private_doc_skipped_witness :
    parseGardenMeta (fun _ => some ⟨none⟩) (fun s => s) ⟨lit "c.md", lit "hello", 3⟩
      = .ok
        { link := lit "/garden/c.html"
          canonicalUrl := lit "https://vslinko.com/garden/c.html"
          title := lit "c"
          mtime := 3
          dirs := []
          meta := ⟨none⟩
          tags := []
          isPublic := false
          content := lit "hello" }
    ∧ buildGarden (fun _ => some ⟨none⟩) (fun s => s) (fun _ => []) (fun s => s)
        [⟨lit "c.md", lit "hello", 3⟩]
      = buildGarden (fun _ => some ⟨none⟩) (fun s => s) (fun _ => []) (fun s => s) [] := by
  constructor
  · rfl
  · have h := private_doc_skipped (fun _ => some ⟨none⟩) (fun s => s)
      (fun _ => []) (fun s => s) [] [] ⟨lit "c.md", lit "hello", 3⟩
      { link := lit "/garden/c.html"
        canonicalUrl := lit "https://vslinko.com/garden/c.html"
        title := lit "c"
        mtime := 3
        dirs := []
        meta := ⟨none⟩
        tags := []
        isPublic := false
        content := lit "hello" }
      (by rfl) (by decide) (by decide)
    simpa using h.2.2

/- ===================================================================
   C9: tree construction — one folder node per segment, one leaf per
   document.
   =================================================================== -/

theorem splitFirstFolder_some (d : Str) (fs : List GTree)
    (p : List GTree) (t0 : GTree) (q : List GTree)
    (h : splitFirstFolder d fs = some (p, t0, q)) :
    fs = p ++ t0 :: q ∧ t0.name = d := by
  induction fs generalizing p with
  | nil => simp [splitFirstFolder] at h
  | cons t ts ih =>
    by_cases ht : t.name = d
    · simp only [splitFirstFolder, ht, if_true, Option.some.injEq, Prod.mk.injEq] at h
      obtain ⟨h1, h2, h3⟩ := h
      subst h1; subst h2; subst h3
      exact ⟨rfl, ht⟩
    · simp only [splitFirstFolder, ht, if_false] at h
      rw [Option.map_eq_some'] at h
      obtain ⟨⟨p2, t2, q2⟩, hsplit, heq⟩ := h
      simp only [Prod.mk.injEq] at heq
      obtain ⟨h1, h2, h3⟩ := heq
      subst h2; subst h3
      obtain ⟨hfs, hname⟩ := ih p2 hsplit
      constructor
      · rw [← h1]
        simp [hfs]
      · exact hname

theorem splitFirstFolder_none (d : Str) (fs : List GTree)
    (h : splitFirstFolder d fs = none) :
    ∀ t, t ∈ fs → t.name ≠ d := by
  induction fs with
  | nil => intro t ht; simp at ht
  | cons t ts ih =>
    intro x hx
    by_cases ht : t.name = d
    · simp [splitFirstFolder, ht] at h
    · simp only [splitFirstFolder, ht, if_false, Option.map_eq_none'] at h
      rcases List.mem_cons.mp hx with hx | hx
      · subst hx; exact ht
      · exact ih h x hx

/-- Well-formedness of a tree node: the folder names directly under any
node are pairwise distinct (exactly one folder node per segment name and
level — the consequence of lookup-before-insert). -/
inductive TreeWF : GTree → Prop where
  | mk {n : Str} {fs : List GTree} {ls : List (Str × Str)} :
      (fs.map GTree.name).Nodup → (∀ t, t ∈ fs → TreeWF t) →
      TreeWF (.mk n fs ls)

theorem treeWF_mk_iff (n : Str) (fs : List GTree) (ls : List (Str × Str)) :
    TreeWF (.mk n fs ls) ↔
      (fs.map GTree.name).Nodup ∧ (∀ t, t ∈ fs → TreeWF t) := by
  constructor
  · intro h; cases h with | mk h1 h2 => exact ⟨h1, h2⟩
  · intro h; exact .mk h.1 h.2

theorem treeInsert_name (leaf : Str × Str) (dirs : List Str) (t : GTree) :
    (treeInsert leaf dirs t).name = t.name := by
  cases t with
  | mk n fs ls =>
    cases dirs with
    | nil => rfl
    | cons d rest =>
      simp only [treeInsert]
      cases h : splitFirstFolder d fs with
      | none => rfl
      | some r => obtain ⟨p, t0, q⟩ := r; rfl

mutual

def leafCount : GTree → Nat
  | .mk _ fs ls => ls.length + leafCountL fs

def leafCountL : List GTree → Nat
  | [] => 0
  | t :: ts => leafCount t + leafCountL ts

end

theorem leafCountL_append (xs ys : List GTree) :
    leafCountL (xs ++ ys) = leafCountL xs + leafCountL ys := by
  induction xs with
  | nil => simp [leafCountL]
  | cons t ts ih => simp [leafCountL, ih]; omega

/-- Inserting one document adds exactly one leaf entry to the tree. -/
theorem treeInsert_leafCount (leaf : Str × Str) (dirs : List Str) (t : GTree) :
    leafCount (treeInsert leaf dirs t) = leafCount t + 1 := by
  induction dirs generalizing t with
  | nil =>
    cases t with
    | mk n fs ls => simp [treeInsert, leafCount]; omega
  | cons d rest ih =>
    cases t with
    | mk n fs ls =>
      simp only [treeInsert]
      cases h : splitFirstFolder d fs with
      | none =>
        simp [leafCount, leafCountL_append, leafCountL, ih]
        omega
      | some r =>
        obtain ⟨p, t0, q⟩ := r
        obtain ⟨hfs, hname⟩ := splitFirstFolder_some d fs p t0 q h
        subst hfs
        simp [leafCount, leafCountL_append, leafCountL, ih]
        omega

/-- Inserting a document preserves well-formedness: an existing folder
node is reused for every segment already present (lookup before insert),
and a fresh node is appended only for a segment name not yet present. -/
theorem treeInsert_wf (leaf : Str × Str) (dirs : List Str) (t : GTree)
    (hwf : TreeWF t) : TreeWF (treeInsert leaf dirs t) := by
  induction dirs generalizing t with
  | nil =>
    cases t with
    | mk n fs ls =>
      rw [treeWF_mk_iff] at hwf
      exact .mk hwf.1 hwf.2
  | cons d rest ih =>
    cases t with
    | mk n fs ls =>
      rw [treeWF_mk_iff] at hwf
      obtain ⟨hnodup, hmem⟩ := hwf
      simp only [treeInsert]
      cases h : splitFirstFolder d fs with
      | none =>
        have hnew : ∀ x, x ∈ fs → x.name ≠ d := splitFirstFolder_none d fs h
        refine .mk ?_ ?_
        · rw [List.map_append, List.map_cons, List.map_nil]
          rw [treeInsert_name]
          simp only [GTree.name]
          rw [List.nodup_append]
          refine ⟨hnodup, List.nodup_singleton d, ?_⟩
          intro x hx
          simp only [List.mem_singleton]
          obtain ⟨y, hy, hyx⟩ := List.mem_map.mp hx
          intro hcontra
          exact hnew y hy (hyx.trans hcontra)
        · intro x hx
          rcases List.mem_append.mp hx with hx | hx
          · exact hmem x hx
          · rw [List.mem_singleton] at hx
            subst hx
            exact ih _ (.mk (by simp) (by simp))
      | some r =>
        obtain ⟨p, t0, q⟩ := r
        obtain ⟨hfs, hname⟩ := splitFirstFolder_some d fs p t0 q h
        subst hfs
        refine .mk ?_ ?_
        · have : (p ++ treeInsert leaf rest t0 :: q).map GTree.name =
              (p ++ t0 :: q).map GTree.name := by
            simp [treeInsert_name]
          rw [this]
          exact hnodup
        · intro x hx
          rcases List.mem_append.mp hx with hx | hx
          · exact hmem x (List.mem_append.mpr (Or.inl hx))
          · rcases List.mem_cons.mp hx with hx | hx
            · subst hx
              exact ih t0 (hmem t0 (List.mem_append.mpr (Or.inr (List.mem_cons_self t0 q))))
            · exact hmem x (List.mem_append.mpr (Or.inr (List.mem_cons.mpr (Or.inr hx))))

theorem buildGardenTree_fold_wf (docs : List Doc) (t : GTree) (hwf : TreeWF t) :
    TreeWF (docs.foldl (fun t d => treeInsert (d.link, d.title) d.dirs t) t) := by
  induction docs generalizing t with
  | nil => exact hwf
  | cons d docs ih => exact ih _ (treeInsert_wf _ _ _ hwf)

theorem buildGardenTree_fold_count (docs : List Doc) (t : GTree) :
    leafCount (docs.foldl (fun t d => treeInsert (d.link, d.title) d.dirs t) t) =
      leafCount t + docs.length := by
  induction docs generalizing t with
  | nil => simp
  | cons d docs ih =>
    simp only [List.foldl_cons, ih, treeInsert_leafCount, List.length_cons]
    omega

/-- C9.  Tree construction is idempotent on folder structure: for every
list of public documents, the tree built by `buildGardenTree` has
pairwise-distinct folder names under every node (two documents sharing a
directory-segment prefix reuse the same folder node per shared segment,
by lookup-before-insert), while the total number of leaf entries equals
the number of documents inserted — every document contributes exactly
one leaf, with no deduplication of leaves. -/
theorem garden_tree_wf_and_leaf_count (docs : List Doc) :
    TreeWF (buildGardenTree docs)
    ∧ leafCount (buildGardenTree docs) = docs.length := by
  constructor
  · exact buildGardenTree_fold_wf docs _ (.mk (by simp) (by simp))
  · rw [buildGardenTree, buildGardenTree_fold_count]
    simp [leafCount, leafCountL]

/- ===================================================================
   C6: unresolvable wiki references.
   =================================================================== -/

theorem foldl_pageResolver (pm : PermalinkMap) (names : List Str) :
    ∀ acc : List Str,
      names.foldl (fun links n => (pageResolver pm n links).1) acc
        = acc ++ names.filterMap (pmGet pm) := by
  induction names with
  | nil => intro acc; simp
  | cons n ns ih =>
    intro acc
    rw [List.foldl_cons]
    cases hn : pmGet pm n with
    | none =>
      have hv : (pageResolver pm n acc).1 = acc := by simp [pageResolver, hn]
      rw [hv, ih acc, List.filterMap_cons, hn]
    | some p =>
      have hv : (pageResolver pm n acc).1 = acc ++ [p] := by simp [pageResolver, hn]
      rw [hv, ih (acc ++ [p]), List.filterMap_cons, hn]
      simp

/-- The `links` array is exactly the permalinks of the resolvable
references, in source order. -/
theorem resolveLinks_eq_filterMap (pm : PermalinkMap) (names : List Str) :
    resolveLinks pm names = names.filterMap (pmGet pm) := by
  simpa using foldl_pageResolver pm names []

/-- C6.  A wiki reference whose title is absent from the permalink index
is inert: `pageResolver` returns the empty candidate list and leaves the
`links` array untouched, the reference renders as plain text identical to
the alias (or to the title when no alias is given), and dropping the
reference from the resolution sequence does not change the resolved
links — so it contributes nothing to the backlink index. -/
theorem unresolved_wikilink_plain_text_no_edge (ty : Str → Str)
    (pm : PermalinkMap) (t : Str) (a : Option Str) (links : List Str)
    (names1 names2 : List Str) (h : pmGet pm t = none) :
    pageResolver pm t links = (links, [])
    ∧ renderInline ty pm (.wiki t a) = .text (aliasOr a t)
    ∧ resolveLinks pm (names1 ++ t :: names2) = resolveLinks pm (names1 ++ names2) := by
  refine ⟨?_, ?_, ?_⟩
  · simp [pageResolver, h]
  · simp [renderInline, h]
  · simp [resolveLinks_eq_filterMap, List.filterMap_append, List.filterMap_cons, h]

/-- Witness for C6 at a concrete input: an index holding only `B`, a
reference to the unknown title `X` with alias `x`. -/
theorem unresolved_wikilink_plain_text_no_edge_witness :
    pmGet [(lit "B", lit "/garden/b.html")] (lit "X") = none
    ∧ pageResolver [(lit "B", lit "/garden/b.html")] (lit "X") [lit "/u"] = ([lit "/u"], [])
    ∧ renderInline (fun s => s) [(lit "B", lit "/garden/b.html")] (.wiki (lit "X") (some (lit "x")))
        = .text (lit "x")
    ∧ resolveLinks [(lit "B", lit "/garden/b.html")] [lit "B", lit "X"]
        = resolveLinks [(lit "B", lit "/garden/b.html")] [lit "B"] := by
  have h := unresolved_wikilink_plain_text_no_edge (fun s => s)
    [(lit "B", lit "/garden/b.html")] (lit "X") (some (lit "x")) [lit "/u"]
    [lit "B"] [] (by decide)
  exact ⟨by decide, h.1, h.2.1, h.2.2⟩

/- ===================================================================
   C7: the hidden-section marker.
   =================================================================== -/

theorem isPrefixOf_append (m l r : List Char) (h : m.isPrefixOf l = true) :
    m.isPrefixOf (l ++ r) = true := by
  induction m generalizing l with
  | nil => simp [List.isPrefixOf]
  | cons a as ih =>
    cases l with
    | nil => simp [List.isPrefixOf] at h
    | cons b bs =>
      simp only [List.cons_append, List.isPrefixOf, Bool.and_eq_true, beq_iff_eq] at h ⊢
      exact ⟨h.1, ih bs h.2⟩

/-- If the first occurrence of a nonempty `m` in `xs ++ ys` starts exactly
at the end of `xs`, then `m` does not occur in `xs` at all. -/
theorem firstOccur_append_exact (m : Str) (hm : m ≠ []) :
    ∀ xs ys : Str, firstOccur m (xs ++ ys) = some xs.length →
      firstOccur m xs = none := by
  intro xs
  induction xs with
  | nil => intro ys h; simp [firstOccur, hm]
  | cons c cs ih =>
    intro ys h
    simp only [List.cons_append, firstOccur, List.length_cons, List.append_eq] at h ⊢
    cases hp : m.isPrefixOf (c :: (cs ++ ys)) with
    | true => simp [hp] at h
    | false =>
      rw [hp] at h
      simp only [Bool.false_eq_true, if_false] at h
      rw [Option.map_eq_some'] at h
      obtain ⟨i, hi, hadd⟩ := h
      have hi' : i = cs.length := by omega
      subst hi'
      have hnone : firstOccur m cs = none := ih ys hi
      have hq : m.isPrefixOf (c :: cs) = false := by
        cases hq : m.isPrefixOf (c :: cs) with
        | true =>
          have := isPrefixOf_append m (c :: cs) ys hq
          rw [List.cons_append] at this
          rw [this] at hp
          exact absurd hp (by simp)
        | false => rfl
      simp [hq, hnone]

/-- C7.  Everything after the first occurrence of the hidden-section
marker is excluded before any further processing
(`parseMarkdown`, src/unnamed/part_000:200-280): when the raw body is
`pre ++ "<!--hidden-->" ++ post` with the marker's first occurrence at the
end of `pre`, the whole result of `parseMarkdown` — rendered output,
table-of-contents entries, wiki-link edges, title, code-block flag —
equals the result of processing just `pre`; `post` contributes nothing. -/
theorem hidden_marker_truncates (parseMd : Str → List Block) (ty : Str → Str)
    (pm : Option PermalinkMap) (pre post : Str)
    (h : firstOccur hiddenMarker (pre ++ hiddenMarker ++ post) = some pre.length) :
    parseMarkdown parseMd ty pm (pre ++ hiddenMarker ++ post) =
      parseMarkdown parseMd ty pm pre := by
  have hm : hiddenMarker ≠ [] := by decide
  have h2 : firstOccur hiddenMarker pre = none :=
    firstOccur_append_exact hiddenMarker hm pre (hiddenMarker ++ post)
      (by simpa [List.append_assoc] using h)
  have e1 : cutHidden (pre ++ hiddenMarker ++ post) = pre := by
    simp only [cutHidden, h]
    have h3 := List.take_left pre (hiddenMarker ++ post)
    rw [← List.append_assoc] at h3
    exact h3
  have e2 : cutHidden pre = pre := by
    simp only [cutHidden, h2]
  unfold parseMarkdown
  rw [e1, e2]

/-- Witness for C7 at a concrete input: the body
`"# A\n<!--hidden-->secret [[B]]"` is processed exactly like `"# A\n"`. -/
theorem hidden_marker_truncates_witness :
    firstOccur hiddenMarker (lit "# A\n" ++ hiddenMarker ++ lit "secret [[B]]")
      = some (lit "# A\n").length
    ∧ parseMarkdown (fun _ => []) (fun s => s) none
        (lit "# A\n" ++ hiddenMarker ++ lit "secret [[B]]")
      = parseMarkdown (fun _ => []) (fun s => s) none (lit "# A\n") := by
  refine ⟨by decide, ?_⟩
  exact hidden_marker_truncates (fun _ => []) (fun s => s) none
    (lit "# A\n") (lit "secret [[B]]") (by decide)

/- ===================================================================
   C5: sitemap lastmod.
   =================================================================== -/

theorem foldl_max_eq (l : List Nat) :
    ∀ x : Nat, l.foldl Nat.max x = Nat.max x (l.foldr Nat.max 0) := by
  induction l with
  | nil => intro x; simp
  | cons a l ih =>
    intro x
    simp only [List.foldl_cons, List.foldr_cons, ih]
    simp only [Nat.max_def]
    split_ifs <;> omega

/-- C5.  For every processed public document, the lastmod paired with its
canonical URL in the garden's sitemap entries equals the maximum of the
document's own mtime and the mtimes of all documents in its backlink
entry; and when the backlink entry is empty (the `backlinks.get` miss,
`fileBacklinks || []`), the emitted value is exactly the document's own
mtime. -/
theorem sitemap_lastmod_max (parseMd : Str → List Block) (ty : Str → Str)
    (pm : PermalinkMap) (docs : List Doc) (f : PFile)
    (hf : f ∈ (pass2 parseMd ty pm docs).1) :
    ((f.canonicalUrl,
        Nat.max f.mtime
          ((((pass2 parseMd ty pm docs).2 f.link).map PFile.mtime).foldr Nat.max 0))
      ∈ gardenUrls (pass2 parseMd ty pm docs).1 (pass2 parseMd ty pm docs).2)
    ∧ ((pass2 parseMd ty pm docs).2 f.link = [] →
        jsMathMax f.mtime (((pass2 parseMd ty pm docs).2 f.link).map PFile.mtime)
          = f.mtime) := by
  constructor
  · have hmax : jsMathMax f.mtime (((pass2 parseMd ty pm docs).2 f.link).map PFile.mtime)
        = Nat.max f.mtime
            ((((pass2 parseMd ty pm docs).2 f.link).map PFile.mtime).foldr Nat.max 0) :=
      foldl_max_eq _ _
    rw [← hmax]
    exact List.mem_map_of_mem
      (fun f => (f.canonicalUrl, jsMathMax f.mtime
        (((pass2 parseMd ty pm docs).2 f.link).map PFile.mtime))) hf
  · intro hempty
    rw [hempty]
    simp [jsMathMax]

/- ===================================================================
   C4: backlink multiplicity and rendered hyperlinks.
   =================================================================== -/

theorem pass2_fold_fst (parseMd : Str → List Block) (ty : Str → Str)
    (pm : PermalinkMap) (docs : List Doc) :
    ∀ acc : List PFile × (Str → List PFile),
      (docs.foldl
        (fun acc d =>
          let pf := parseGardenFile parseMd ty pm d
          (acc.1 ++ [pf], blAdd acc.2 pf)) acc).1
        = acc.1 ++ docs.map (parseGardenFile parseMd ty pm) := by
  induction docs with
  | nil => intro acc; simp
  | cons d ds ih =>
    intro acc
    rw [List.foldl_cons, ih]
    simp

/-- The processed list of the second pass is the map of `parseGardenFile`
over the public documents in order. -/
theorem pass2_fst (parseMd : Str → List Block) (ty : Str → Str)
    (pm : PermalinkMap) (docs : List Doc) :
    (pass2 parseMd ty pm docs).1 = docs.map (parseGardenFile parseMd ty pm) := by
  simpa [pass2] using pass2_fold_fst parseMd ty pm docs ([], fun _ => [])

theorem foldl_blAdd_apply (pf : PFile) (ls : List Str) :
    ∀ (bl : Str → List PFile) (u : Str),
      (ls.foldl (fun b l => fun x => if x = l then b x ++ [pf] else b x) bl) u
        = bl u ++ List.replicate (ls.count u) pf := by
  induction ls with
  | nil => intro bl u; simp
  | cons l ls ih =>
    intro bl u
    rw [List.foldl_cons, ih]
    by_cases hu : u = l
    · subst hu
      simp [List.count_cons, List.replicate_succ]
    · have hlu : (l == u) = false := beq_eq_false_iff_ne.mpr (fun hh => hu hh.symm)
      simp [List.count_cons, hlu, hu]

/-- One step of backlink accumulation: the entry for `u` gains one copy of
the processed document per occurrence of `u` in its `links` array. -/
theorem blAdd_apply (bl : Str → List PFile) (pf : PFile) (u : Str) :
    blAdd bl pf u = bl u ++ List.replicate (pf.links.count u) pf :=
  foldl_blAdd_apply pf pf.links bl u

/-- The backlink entry for `u` produced by the whole second pass. -/
def blSpec (files : List PFile) (u : Str) : List PFile :=
  (files.map (fun f => List.replicate (f.links.count u) f)).flatten

theorem pass2_fold_snd (parseMd : Str → List Block) (ty : Str → Str)
    (pm : PermalinkMap) (docs : List Doc) :
    ∀ (acc : List PFile × (Str → List PFile)) (u : Str),
      (docs.foldl
        (fun acc d =>
          let pf := parseGardenFile parseMd ty pm d
          (acc.1 ++ [pf], blAdd acc.2 pf)) acc).2 u
        = acc.2 u ++ blSpec (docs.map (parseGardenFile parseMd ty pm)) u := by
  induction docs with
  | nil => intro acc u; simp [blSpec]
  | cons d ds ih =>
    intro acc u
    rw [List.foldl_cons, ih]
    simp only [blAdd_apply, blSpec, List.map_cons, List.flatten_cons, List.append_assoc]

/-- The backlink index of the second pass, entrywise. -/
theorem pass2_snd (parseMd : Str → List Block) (ty : Str → Str)
    (pm : PermalinkMap) (docs : List Doc) (u : Str) :
    (pass2 parseMd ty pm docs).2 u
      = blSpec (docs.map (parseGardenFile parseMd ty pm)) u := by
  simpa [pass2] using pass2_fold_snd parseMd ty pm docs ([], fun _ => []) u

theorem count_blSpec_zero (u : Str) (a : PFile) (files : List PFile)
    (h : files.count a = 0) : (blSpec files u).count a = 0 := by
  induction files with
  | nil => simp [blSpec]
  | cons f fs ih =>
    rw [List.count_cons] at h
    have hfa : (f == a) = false := by
      cases hb : f == a
      · rfl
      · rw [hb] at h; simp at h
    rw [hfa] at h
    simp only [Bool.false_eq_true, if_false, Nat.add_zero] at h
    simp only [blSpec, List.map_cons, List.flatten_cons, List.count_append]
    rw [List.count_replicate, hfa]
    simp only [Bool.false_eq_true, if_false, Nat.zero_add]
    exact ih h

theorem count_blSpec_one (u : Str) (a : PFile) (files : List PFile)
    (h : files.count a = 1) : (blSpec files u).count a = a.links.count u := by
  induction files with
  | nil => simp [List.count_nil] at h
  | cons f fs ih =>
    rw [List.count_cons] at h
    simp only [blSpec, List.map_cons, List.flatten_cons, List.count_append]
    rw [List.count_replicate]
    cases hb : f == a with
    | true =>
      have hfa : f = a := by simpa using hb
      subst hfa
      simp only [beq_self_eq_true, if_true] at h ⊢
      have h0 : fs.count f = 0 := by omega
      have hz : (blSpec fs u).count f = 0 := count_blSpec_zero u f fs h0
      have hz2 : ((fs.map (fun f => List.replicate (f.links.count u) f)).flatten).count f = 0 := hz
      rw [hz2]
      omega
    | false =>
      rw [hb] at h
      simp only [Bool.false_eq_true, if_false, Nat.add_zero] at h
      simp only [Bool.false_eq_true, if_false, Nat.zero_add]
      exact ih h

def rinlineIsLink (url : Str) : RInline → Bool
  | .link h _ => decide (h = url)
  | .text _ => false

def rblockHasLink (url : Str) : RBlock → Bool
  | .heading _ _ xs => xs.any (rinlineIsLink url)
  | .para xs => xs.any (rinlineIsLink url)
  | .code _ => false

/-- The rendered document contains a hyperlink whose href is `url`. -/
def hasLinkTo (rbs : List RBlock) (url : Str) : Bool :=
  rbs.any (rblockHasLink url)

theorem renderBlock_has_link (ty : Str → Str) (pm : PermalinkMap) (b : Block)
    (t : Str) (a : Option Str) (url : Str)
    (hmem : (t, a) ∈ blockWikis b) (hres : pmGet pm t = some url) :
    rblockHasLink url (renderBlock ty pm b) = true := by
  have hinl : ∀ xs : List Inline, (t, a) ∈ xs.filterMap inlineWiki →
      (xs.map (renderInline ty pm)).any (rinlineIsLink url) = true := by
    intro xs hx
    obtain ⟨i, hi, hiw⟩ := List.mem_filterMap.mp hx
    cases i with
    | str s => simp [inlineWiki] at hiw
    | wiki t2 a2 =>
      simp only [inlineWiki, Option.some.injEq, Prod.mk.injEq] at hiw
      rw [List.any_eq_true]
      refine ⟨renderInline ty pm (.wiki t2 a2), List.mem_map_of_mem _ hi, ?_⟩
      simp [renderInline, hiw.1, hres, rinlineIsLink]
  cases b with
  | heading d id xs =>
    simp only [blockWikis] at hmem
    simpa [renderBlock, rblockHasLink] using hinl xs hmem
  | para xs =>
    simp only [blockWikis] at hmem
    simpa [renderBlock, rblockHasLink] using hinl xs hmem
  | code s => simp [blockWikis] at hmem

/-- A resolvable wiki reference anywhere in the rendered blocks yields a
hyperlink to its permalink in the rendered output. -/
theorem render_contains_link (ty : Str → Str) (pm : PermalinkMap)
    (bs : List Block) (t : Str) (a : Option Str) (url : Str)
    (hmem : (t, a) ∈ wikiNodes bs) (hres : pmGet pm t = some url) :
    hasLinkTo (renderBlocks ty pm bs) url = true := by
  obtain ⟨ws, hws, hmem2⟩ := List.mem_flatten.mp hmem
  obtain ⟨b, hb, hbw⟩ := List.mem_map.mp hws
  subst hbw
  rw [hasLinkTo, List.any_eq_true]
  exact ⟨renderBlock ty pm b, List.mem_map_of_mem _ hb,
    renderBlock_has_link ty pm b t a url hmem2 hres⟩

/-- A concrete markdown parser table for the example garden used by the
concrete instances below: `bodyA` holds two wiki references to `B`,
`h1A` holds one wiki reference to `B` inside its level-1 heading,
`bodyC` holds one wiki reference to `B` inside a paragraph. -/
def exParse : Str → List Block := fun c =>
  if c = lit "bodyA" then [.para [.wiki (lit "B") none, .wiki (lit "B") none]]
  else if c = lit "h1A" then [.heading 1 (lit "a") [.wiki (lit "B") none]]
  else if c = lit "bodyC" then [.para [.str (lit "see "), .wiki (lit "B") none]]
  else []

def exTy : Str → Str := fun s => s

def exPm : PermalinkMap :=
  [(lit "A", lit "/garden/a.html"), (lit "B", lit "/garden/b.html")]

def exDocA : Doc :=
  { link := lit "/garden/a.html"
    canonicalUrl := lit "https://vslinko.com/garden/a.html"
    title := lit "A", mtime := 5, dirs := []
    meta := ⟨some (.one (lit "public"))⟩, tags := [lit "public"]
    isPublic := true, content := lit "bodyA" }

def exDocB : Doc :=
  { link := lit "/garden/b.html"
    canonicalUrl := lit "https://vslinko.com/garden/b.html"
    title := lit "B", mtime := 9, dirs := []
    meta := ⟨some (.one (lit "public"))⟩, tags := [lit "public"]
    isPublic := true, content := lit "bodyB" }

def exDocA2 : Doc :=
  { link := lit "/garden/a2.html"
    canonicalUrl := lit "https://vslinko.com/garden/a2.html"
    title := lit "A2", mtime := 5, dirs := []
    meta := ⟨some (.one (lit "public"))⟩, tags := [lit "public"]
    isPublic := true, content := lit "h1A" }

def exDocC : Doc :=
  { link := lit "/garden/c.html"
    canonicalUrl := lit "https://vslinko.com/garden/c.html"
    title := lit "C", mtime := 4, dirs := []
    meta := ⟨some (.one (lit "public"))⟩, tags := [lit "public"]
    isPublic := true, content := lit "bodyC" }

/-- C4 (counterexample).  The claim "the Backlink Index entry for B's URL
contains A exactly once, and A's rendered HTML contains a hyperlink to
B's canonical URL" fails on the code at explicit inputs: (a) document
`exDocA`, whose body holds two wiki references to `B` (both resolvable),
is pushed onto B's backlink entry once per reference, so the entry
contains it twice, not once; (b) document `exDocA2`, whose only
(resolvable) wiki reference to `B` sits inside its level-1 heading,
records the outbound link, yet its rendered body contains no hyperlink
at all, because the title heading is spliced out before rendering. -/
theorem backlink_exactly_once_counterexample :
    pmGet exPm (lit "B") = some exDocB.link
    ∧ (lit "B", (none : Option Str)) ∈ wikiNodes (exParse exDocA.content)
    ∧ ((pass2 exParse exTy exPm [exDocA, exDocB]).2 exDocB.link).count
        (parseGardenFile exParse exTy exPm exDocA) = 2
    ∧ (lit "B", (none : Option Str)) ∈ wikiNodes (exParse exDocA2.content)
    ∧ (parseGardenFile exParse exTy exPm exDocA2).links = [exDocB.link]
    ∧ hasLinkTo (parseGardenFile exParse exTy exPm exDocA2).rendered exDocB.link = false := by
  refine ⟨by decide, by decide, by decide, by decide, by decide, by decide⟩

/-- C4 (amended).  For every pair of public documents (A, B) where A's
body contains a wiki reference whose title resolves in the permalink
index to B's URL (and A appears once in the processed list): the
backlink entry for B's URL contains A exactly once per wiki reference in
A's body whose title resolves to B's URL — hence at least once, but with
duplicates kept rather than collapsed — and A's rendered output contains
a hyperlink to B's URL provided at least one such reference lies outside
the extracted level-1 title heading that rendering removes. -/
theorem backlink_count_and_render (parseMd : Str → List Block) (ty : Str → Str)
    (pm : PermalinkMap) (docs : List Doc) (dA : Doc) (t : Str) (a : Option Str)
    (urlB : Str)
    (hA : dA ∈ docs)
    (hcount : (docs.map (parseGardenFile parseMd ty pm)).count
        (parseGardenFile parseMd ty pm dA) = 1)
    (ht : (t, a) ∈ wikiNodes (parseMd dA.content))
    (hres : pmGet pm t = some urlB) :
    (((pass2 parseMd ty pm docs).2 urlB).count (parseGardenFile parseMd ty pm dA)
        = (parseGardenFile parseMd ty pm dA).links.count urlB)
    ∧ 1 ≤ ((pass2 parseMd ty pm docs).2 urlB).count (parseGardenFile parseMd ty pm dA)
    ∧ ((∃ w ∈ wikiNodes (titleParts ty dA.title (parseMd dA.content)).2.2,
          pmGet pm w.1 = some urlB) →
        hasLinkTo (parseGardenFile parseMd ty pm dA).rendered urlB = true) := by
  have hlinks : (parseGardenFile parseMd ty pm dA).links
      = (wikiTargets (parseMd dA.content)).filterMap (pmGet pm) := by
    simp [parseGardenFile, resolveLinks_eq_filterMap]
  have hbl : (pass2 parseMd ty pm docs).2 urlB
      = blSpec (docs.map (parseGardenFile parseMd ty pm)) urlB :=
    pass2_snd parseMd ty pm docs urlB
  have hc : ((pass2 parseMd ty pm docs).2 urlB).count (parseGardenFile parseMd ty pm dA)
      = (parseGardenFile parseMd ty pm dA).links.count urlB := by
    rw [hbl]
    exact count_blSpec_one urlB _ _ hcount
  refine ⟨hc, ?_, ?_⟩
  · rw [hc, hlinks]
    have hmem : urlB ∈ (wikiTargets (parseMd dA.content)).filterMap (pmGet pm) :=
      List.mem_filterMap.mpr ⟨t, List.mem_map_of_mem Prod.fst ht, hres⟩
    exact List.count_pos_iff.mpr hmem
  · rintro ⟨⟨t2, a2⟩, hw, hwres⟩
    have hrend : (parseGardenFile parseMd ty pm dA).rendered
        = renderBlocks ty pm (titleParts ty dA.title (parseMd dA.content)).2.2 := by
      simp [parseGardenFile]
    rw [hrend]
    exact render_contains_link ty pm _ t2 a2 urlB hw hwres

/-- Witness for the amended C4 at a concrete input: `exDocC` holds one
paragraph reference to `B`; B's backlink entry contains it exactly once
and its rendered body contains the hyperlink. -/
theorem backlink_count_and_render_witness :
    exDocC ∈ [exDocC, exDocB]
    ∧ ([exDocC, exDocB].map (parseGardenFile exParse exTy exPm)).count
        (parseGardenFile exParse exTy exPm exDocC) = 1
    ∧ (lit "B", (none : Option Str)) ∈ wikiNodes (exParse exDocC.content)
    ∧ pmGet exPm (lit "B") = some (lit "/garden/b.html")
    ∧ ((pass2 exParse exTy exPm [exDocC, exDocB]).2 (lit "/garden/b.html")).count
        (parseGardenFile exParse exTy exPm exDocC)
      = (parseGardenFile exParse exTy exPm exDocC).links.count (lit "/garden/b.html")
    ∧ 1 ≤ ((pass2 exParse exTy exPm [exDocC, exDocB]).2 (lit "/garden/b.html")).count
        (parseGardenFile exParse exTy exPm exDocC)
    ∧ hasLinkTo (parseGardenFile exParse exTy exPm exDocC).rendered
        (lit "/garden/b.html") = true := by
  have h := backlink_count_and_render exParse exTy exPm [exDocC, exDocB] exDocC
    (lit "B") none (lit "/garden/b.html") (by decide) (by decide) (by decide) (by decide)
  exact ⟨by decide, by decide, by decide, by decide, h.1, h.2.1,
    h.2.2 ⟨(lit "B", none), by decide, by decide⟩⟩

/-- Witness for C5 at a concrete input: in the two-document garden
(`exDocA` linking twice to `B`, `exDocB`), B's sitemap entry carries
`max 9 (max 5 (max 5 0)) = 9`, and A, which has no backlinks, carries its
own mtime 5. -/
theorem sitemap_lastmod_max_witness :
    (parseGardenFile exParse exTy exPm exDocB ∈ (pass2 exParse exTy exPm [exDocA, exDocB]).1)
    ∧ (((parseGardenFile exParse exTy exPm exDocB).canonicalUrl,
        Nat.max (parseGardenFile exParse exTy exPm exDocB).mtime
          ((((pass2 exParse exTy exPm [exDocA, exDocB]).2
              (parseGardenFile exParse exTy exPm exDocB).link).map PFile.mtime).foldr Nat.max 0))
        ∈ gardenUrls (pass2 exParse exTy exPm [exDocA, exDocB]).1
            (pass2 exParse exTy exPm [exDocA, exDocB]).2)
    ∧ ((pass2 exParse exTy exPm [exDocA, exDocB]).2
        (parseGardenFile exParse exTy exPm exDocA).link = [])
    ∧ jsMathMax (parseGardenFile exParse exTy exPm exDocA).mtime
        (((pass2 exParse exTy exPm [exDocA, exDocB]).2
          (parseGardenFile exParse exTy exPm exDocA).link).map PFile.mtime)
      = (parseGardenFile exParse exTy exPm exDocA).mtime := by
  have hB := sitemap_lastmod_max exParse exTy exPm [exDocA, exDocB]
    (parseGardenFile exParse exTy exPm exDocB) (by decide)
  have hA := sitemap_lastmod_max exParse exTy exPm [exDocA, exDocB]
    (parseGardenFile exParse exTy exPm exDocA) (by decide)
  exact ⟨by decide, hB.1, by decide, hA.2 (by decide)⟩
